import Mathlib

/-!
Verification development for the pensieve snapshot/binlog system.

The Rust sources are shallowly embedded: strings are modelled at the
character level (the inputs of interest are ASCII), machine integers are
Nat/Int with the relevant bounds made explicit, fallible code returns
Except, and the embedded DuckDB store is abstracted as a record of
operations over an opaque state type, exactly as the specification treats
it ("an opaque store supporting statement execution, parameterised
queries, and schema introspection").
-/

deriving instance DecidableEq for Except

namespace Pensieve

/-! ## Character and string helpers (models of Rust std behaviour) -/

/-- Model of splitting a character list at every occurrence of a separator
character; matches the semantics of Rust `str::split(sep)` (empty fields
are kept, the result is never empty). -/
def splitChar (sep : Char) : List Char → List (List Char)
  | [] => [[]]
  | c :: rest =>
    if c = sep then [] :: splitChar sep rest
    else
      match splitChar sep rest with
      | g :: gs => (c :: g) :: gs
      | [] => [[c]]

/-- Substring containment on character lists, the model of Rust
`str::contains(pat)` for a literal pattern. -/
def hasSub : List Char → List Char → Bool
  | [], pat => pat.isEmpty
  | cs@(_ :: rest), pat => pat.isPrefixOf cs || hasSub rest pat

/-- Model of Rust `str::contains` for string receivers and patterns. -/
def strContains (s pat : String) : Bool := hasSub s.toList pat.toList

/-- Model of Rust `str::starts_with` for a literal pattern. -/
def strStarts (s pat : String) : Bool := pat.toList.isPrefixOf s.toList

/-- Numeric value of a digit character. -/
def digitVal (c : Char) : Nat := c.toNat - 48

/-- Value of a non-empty all-digit character list, if it is one. -/
def digitsVal? (cs : List Char) : Option Nat :=
  if cs ≠ [] ∧ cs.all Char.isDigit then
    some (cs.foldl (fun a c => a * 10 + digitVal c) 0)
  else none

/-- Model of Rust `str::parse::<uN>()` on a character list: an optional
leading plus sign followed by one or more digits, with the value bounded
by the given exclusive bound (2^32 for u32, 2^64 for usize on a 64-bit
host). -/
def parseUnsigned (bound : Nat) (cs : List Char) : Option Nat :=
  let body := match cs with
    | c :: rest => if c = '+' then rest else cs
    | [] => []
  match digitsVal? body with
  | some v => if v < bound then some v else none
  | none => none

/-- Rust `str::parse::<u32>()`. -/
def parseU32 (cs : List Char) : Option Nat := parseUnsigned (2 ^ 32) cs

/-- Rust `str::parse::<usize>()` (64-bit host). -/
def parseUsize (cs : List Char) : Option Nat := parseUnsigned (2 ^ 64) cs

/-- Model of Rust `str::parse::<i32>()`: an optional sign followed by one
or more digits, value within the i32 range. -/
def parseI32 (cs : List Char) : Option Int :=
  match cs with
  | '+' :: rest => (digitsVal? rest).bind fun v =>
      if (v : Int) ≤ 2 ^ 31 - 1 then some (v : Int) else none
  | '-' :: rest => (digitsVal? rest).bind fun v =>
      if (v : Int) ≤ 2 ^ 31 then some (-(v : Int)) else none
  | _ => (digitsVal? cs).bind fun v =>
      if (v : Int) ≤ 2 ^ 31 - 1 then some (v : Int) else none

/-! ## BinlogTimestamp (src/binlog/binlog_timestamp.rs)

A chrono `NaiveDateTime` is modelled as the signed count of seconds from
the civil epoch 1970-01-01 00:00:00; comparison of `NaiveDateTime`
values coincides with comparison of these counts, and
`Duration::hours(h)` adds exactly `h * 3600` seconds. -/

/-- Leap year test of the civil calendar. -/
def isLeapYear (y : Int) : Bool := (y % 4 == 0 && y % 100 != 0) || y % 400 == 0

/-- Number of days in a month of the civil calendar. -/
def daysInMonth (y : Int) (m : Nat) : Nat :=
  if m = 2 then (if isLeapYear y then 29 else 28)
  else if m = 4 ∨ m = 6 ∨ m = 9 ∨ m = 11 then 30
  else 31

/-- Days from the civil epoch 1970-01-01 to year/month/day (the standard
days-from-civil algorithm used by calendar libraries such as chrono). -/
def daysFromCivil (y : Int) (m d : Nat) : Int :=
  let yAdj : Int := if m ≤ 2 then y - 1 else y
  let era : Int := (if 0 ≤ yAdj then yAdj else yAdj - 399) / 400
  let yoe : Int := yAdj - era * 400
  let mp : Int := if 2 < m then (m : Int) - 3 else (m : Int) + 9
  let doy : Int := (153 * mp + 2) / 5 + (d : Int) - 1
  let doe : Int := yoe * 365 + yoe / 4 - yoe / 100 + doy
  era * 146097 + doe - 719468

/-- Model of `chrono::NaiveDate::from_ymd_opt` followed by conversion to
a day count: `none` exactly when the date is invalid (month or day out of
range for the civil calendar, or the year outside the range chrono
represents). -/
def fromYmd? (y : Int) (m d : Nat) : Option Int :=
  if -262144 ≤ y ∧ y ≤ 262142 ∧ 1 ≤ m ∧ m ≤ 12 ∧ 1 ≤ d ∧ d ≤ daysInMonth y m
  then some (daysFromCivil y m d) else none

/-- Model of `chrono::NaiveTime::from_hms_opt` followed by conversion to
a second-of-day count. -/
def fromHms? (h m s : Nat) : Option Nat :=
  if h < 24 ∧ m < 60 ∧ s < 60 then some (h * 3600 + m * 60 + s) else none

/-- Model of `BinlogTimestamp`: the wrapped `NaiveDateTime` as a second
count from the civil epoch. The derived order on `secs` coincides with
the derived `PartialOrd`/`Ord` of the Rust struct. -/
structure BinlogTimestamp where
  secs : Int
deriving DecidableEq, Repr, Inhabited

/-- Embedding of `BinlogTimestamp::parse`: split on a single space,
require a 6-character date sliced as YY/MM/DD with the year prefixed by
"20", split the time on colons into exactly three components, parse each
field with the Rust integer parser, and validate through
`from_ymd_opt`/`from_hms_opt`. -/
def BinlogTimestamp.parse (timestamp : String) : Except String BinlogTimestamp :=
  match splitChar ' ' timestamp.toList with
  | [date_part, time_part] =>
    if date_part.length ≠ 6 then .error "Invalid date format: expected 6 digits (YYMMDD)"
    else
      match parseI32 ('2' :: '0' :: date_part.take 2) with
      | none => .error "Invalid year"
      | some year =>
        match parseU32 ((date_part.drop 2).take 2) with
        | none => .error "Invalid month"
        | some month =>
          match parseU32 (date_part.drop 4) with
          | none => .error "Invalid day"
          | some day =>
            match splitChar ':' time_part with
            | [hc, mc, sc] =>
              match parseU32 hc with
              | none => .error "Invalid hour"
              | some hour =>
                match parseU32 mc with
                | none => .error "Invalid minute"
                | some minute =>
                  match parseU32 sc with
                  | none => .error "Invalid second"
                  | some second =>
                    match fromYmd? year month day with
                    | none => .error "Invalid date"
                    | some days =>
                      match fromHms? hour minute second with
                      | none => .error "Invalid time"
                      | some sod => .ok ⟨days * 86400 + (sod : Int)⟩
            | _ => .error "Invalid time format: expected HH:MM:SS"
  | _ => .error "Invalid timestamp format: expected YYMMDD HH:MM:SS"

/-- Embedding of `BinlogTimestamp::add_hours`. -/
def BinlogTimestamp.add_hours (t : BinlogTimestamp) (hours : Int) : BinlogTimestamp :=
  ⟨t.secs + hours * 3600⟩

/-- Embedding of `BinlogTimestamp::subtract_hours`. -/
def BinlogTimestamp.subtract_hours (t : BinlogTimestamp) (hours : Int) : BinlogTimestamp :=
  ⟨t.secs - hours * 3600⟩

/-! ## Operation model (src/binlog/binlog_operation.rs) -/

/-- Embedding of `OperationType`. -/
inductive OperationType where
  | Insert
  | Update
  | Delete
deriving DecidableEq, Repr, Inhabited

/-- Embedding of `BinlogOperation`. `position` is a u32 in the source;
values produced by the parser are below 2^32 by construction. -/
structure BinlogOperation where
  timestamp : Option String
  position : Option Nat
  operation_type : OperationType
  table_name : String
  database : String
  columns : List String
  before_values : Option (List String)
  after_values : Option (List String)
deriving DecidableEq, Repr, Inhabited

/-- Embedding of `BinlogOperation::invert`. -/
def BinlogOperation.invert (op : BinlogOperation) : BinlogOperation :=
  match op.operation_type with
  | .Insert =>
    { operation_type := .Delete
      before_values := op.after_values
      after_values := none
      timestamp := op.timestamp
      position := op.position
      table_name := op.table_name
      database := op.database
      columns := op.columns }
  | .Update =>
    { before_values := op.after_values
      after_values := op.before_values
      timestamp := op.timestamp
      position := op.position
      operation_type := .Update
      table_name := op.table_name
      database := op.database
      columns := op.columns }
  | .Delete =>
    { operation_type := .Insert
      before_values := none
      after_values := op.before_values
      timestamp := op.timestamp
      position := op.position
      table_name := op.table_name
      database := op.database
      columns := op.columns }

/-! ## The abstract store

The embedded DuckDB connection is abstracted, as in the specification, to
an opaque state `σ` together with the operations the core uses on it.
`schemaOf` models `PRAGMA table_info` through `prepare`/`query_map`
(`none` when the prepare or the query fails, the row-level `if let Ok`
skipping being absorbed into the returned list); `prepareOk` and
`queryRow` model preparing and running the probe SELECT, each row cell
being itself fallible like `row.get(i)`; `execute` models statement
execution on the mutable connection, returning the possibly changed
state alongside the result. -/
structure Db (σ : Type) where
  schemaOf : σ → String → Option (List (String × String))
  prepareOk : σ → String → Bool
  queryRow : σ → String → Except String (Option (List (Except String (Option String))))
  execute : σ → String → Except String Unit × σ

/-! ## OperationApplier (src/operation_applier.rs)

The `schema_cache`/`type_cache` memoisation is dropped: the schema lookup
is a pure function of the state here, so caching is observationally
irrelevant. -/

/-- Embedding of `OperationApplier::get_table_schema`: the catalogue
probe, with every failure mode collapsing to empty lists. -/
def get_table_schema {σ : Type} (db : Db σ) (s : σ) (table_name : String) :
    List String × List String :=
  match db.schemaOf s table_name with
  | none => ([], [])
  | some rows => (rows.map Prod.fst, rows.map Prod.snd)

/-- Embedding of `OperationApplier::generate_sql`. The source unwraps the
image options and panics when absent; the function is only ever invoked
with the image present, and the absent case is modelled by the empty
list. -/
def generate_sql (op : BinlogOperation) : String :=
  match op.operation_type with
  | .Insert =>
    let vals := op.after_values.getD []
    "INSERT INTO " ++ op.table_name ++ " (" ++ String.intercalate ", " op.columns
      ++ ") VALUES (" ++ String.intercalate ", " vals ++ ");"
  | .Update =>
    let before := op.before_values.getD []
    let after := op.after_values.getD []
    let set_parts := (op.columns.zip after).map (fun p => p.1 ++ " = " ++ p.2)
    let where_parts := ((op.columns.zip before).filter (fun p => p.2 ≠ "NULL")).map
      (fun p => p.1 ++ " = " ++ p.2)
    if where_parts.isEmpty then
      "UPDATE " ++ op.table_name ++ " SET " ++ String.intercalate ", " set_parts ++ ";"
    else
      "UPDATE " ++ op.table_name ++ " SET " ++ String.intercalate ", " set_parts
        ++ " WHERE " ++ String.intercalate " AND " where_parts ++ ";"
  | .Delete =>
    let before := op.before_values.getD []
    let where_parts := ((op.columns.zip before).filter (fun p => p.2 ≠ "NULL")).map
      (fun p => p.1 ++ " = " ++ p.2)
    if where_parts.isEmpty then
      "DELETE FROM " ++ op.table_name ++ ";"
    else
      "DELETE FROM " ++ op.table_name ++ " WHERE "
        ++ String.intercalate " AND " where_parts ++ ";"

/-- Re-literalisation of one fetched column value by its cached type,
from the row post-processing inside `fetch_current_row`: string and
temporal types get single quotes, boolean readbacks normalise to 1/0,
SQL NULL becomes the literal token. -/
def reLiteralise (col_type : String) (v : Option String) : String :=
  match v with
  | some v =>
    if strContains col_type "VARCHAR" || strContains col_type "TEXT"
        || strContains col_type "CHAR" || strContains col_type "TIMESTAMP"
        || strContains col_type "DATE" then
      "\x27" ++ v ++ "\x27"
    else if strContains col_type "BOOL" then
      if v = "true" || v = "t" then "1"
      else if v = "false" || v = "f" then "0"
      else v
    else v
  | none => "NULL"

/-- The cell-collection loop of `fetch_current_row`: for each column
index fetch `row.get(i)` (propagating its error) and re-literalise using
`types.get(i).unwrap_or("")`. -/
def collectRow (types : List String) (row : List (Except String (Option String))) :
    List Nat → Except String (List String)
  | [] => .ok []
  | i :: is =>
    match row.getD i (.error "Invalid column index") with
    | .error e => .error e
    | .ok string_val =>
      match collectRow types row is with
      | .error e => .error e
      | .ok rest => .ok (reLiteralise (types.getD i "") string_val :: rest)

/-- Embedding of `OperationApplier::fetch_current_row`. -/
def fetch_current_row {σ : Type} (db : Db σ) (s : σ) (table : String)
    (columns : List String) (identifying_values : List String) :
    Except String (Option (List String)) :=
  let where_parts := ((columns.zip identifying_values).filter (fun p => p.2 ≠ "NULL")).map
    (fun p => p.1 ++ " = " ++ p.2)
  if where_parts.isEmpty then .ok none
  else
    let types := (get_table_schema db s table).2
    if types.isEmpty then .ok none
    else
      let select_parts := columns.map (fun col => "CAST(" ++ col ++ " AS VARCHAR)")
      let query := "SELECT " ++ String.intercalate ", " select_parts ++ " FROM " ++ table
        ++ " WHERE " ++ String.intercalate " AND " where_parts ++ " LIMIT 1"
      if ¬ db.prepareOk s query then .ok none
      else
        match db.queryRow s query with
        | .error e => .error e
        | .ok none => .ok none
        | .ok (some row) =>
          match collectRow types row (List.range columns.length) with
          | .error e => .error e
          | .ok values => .ok (some values)

/-- Embedding of `OperationApplier::should_apply`. The source unwraps the
identifying image and panics when it is absent; the panic is modelled as
an error value (the parser always populates the image for the matching
kind). -/
def should_apply {σ : Type} (db : Db σ) (s : σ) (op : BinlogOperation) :
    Except String Bool :=
  match op.operation_type with
  | .Insert =>
    match op.after_values with
    | none => .error "called unwrap on a None value"
    | some after_vals =>
      match fetch_current_row db s op.table_name op.columns after_vals with
      | .error e => .error e
      | .ok none => .ok true
      | .ok (some current_vals) => .ok (decide (current_vals ≠ after_vals))
  | .Update | .Delete =>
    match op.before_values with
    | none => .error "called unwrap on a None value"
    | some before_vals =>
      match fetch_current_row db s op.table_name op.columns before_vals with
      | .error e => .error e
      | .ok none => .ok false
      | .ok (some current_vals) => .ok (decide (current_vals = before_vals))

/-- Embedding of `OperationApplier::apply_operation_conditionally`,
returning the result together with the (possibly mutated) store state:
a skipped operation touches nothing, an applied operation executes the
generated statement. -/
def apply_operation_conditionally {σ : Type} (db : Db σ) (s : σ)
    (op : BinlogOperation) : Except String Bool × σ :=
  match should_apply db s op with
  | .error e => (.error e, s)
  | .ok false => (.ok false, s)
  | .ok true =>
    match db.execute s (generate_sql op) with
    | (.error e, s2) => (.error e, s2)
    | (.ok _, s2) => (.ok true, s2)

/-! ## TimestampNormaliser (src/snapshot_normaliser/timestamp_normaliser.rs)

Progress printing and the applied/skipped tallies are observational side
effects only and are dropped. -/

/-- One phase loop of `normalize`: conditionally apply, for each listed
stream index in order, the image of the operation at that index under
`f` (the identity in the forward phase, `invert` in the reverse phase),
aborting on the first store error exactly as the `?` operator does. -/
def applyIdxList {σ : Type} (db : Db σ) (operations : List BinlogOperation)
    (f : BinlogOperation → BinlogOperation) : σ → List Nat → Except String σ
  | s, [] => .ok s
  | s, idx :: rest =>
    match apply_operation_conditionally db s (f (operations.getD idx default)) with
    | (.error e, _) => .error e
    | (.ok _, s2) => applyIdxList db operations f s2 rest

/-- The window membership closure of `normalize`: an operation is in the
window when it carries a timestamp, the timestamp parses, and the parsed
instant lies within the inclusive window bounds. -/
def opInWindow (ts_lower ts_upper : BinlogTimestamp) (op : BinlogOperation) : Bool :=
  match op.timestamp with
  | some ts_str =>
    match BinlogTimestamp.parse ts_str with
    | .ok op_ts => decide (ts_lower.secs ≤ op_ts.secs ∧ op_ts.secs ≤ ts_upper.secs)
    | .error _ => false
  | none => false

/-- Embedding of `TimestampNormaliser::normalize`: parse the approximate
snapshot timestamp, collect the stream indices whose parsed operation
timestamps lie within the window, return early with the fallback anchor
when the window is empty, otherwise pick the median in-window index as
transaction zero, conditionally apply the in-window operations up to and
including it in stream order, then conditionally apply the inverses of
the in-window operations after it in reverse stream order. -/
def normalize {σ : Type} (db : Db σ) (s : σ) (operations : List BinlogOperation)
    (snapshot_timestamp : String) (window_hours : Int) :
    Except String (σ × Nat) :=
  match BinlogTimestamp.parse snapshot_timestamp with
  | .error e => .error ("Failed to parse snapshot timestamp: " ++ e)
  | .ok snapshot_ts =>
    let ts_lower := snapshot_ts.subtract_hours window_hours
    let ts_upper := snapshot_ts.add_hours window_hours
    let window_ops :=
      (operations.enum.filter (fun p => opInWindow ts_lower ts_upper p.2)).map Prod.fst
    if window_ops.isEmpty then
      .ok (s, if operations.isEmpty then 0 else operations.length - 1)
    else
      let tx_zero_idx := window_ops.getD (window_ops.length / 2) 0
      match applyIdxList db operations (fun op => op) s
          (window_ops.filter (fun i => i ≤ tx_zero_idx)) with
      | .error e => .error e
      | .ok s1 =>
        let after_indices := (window_ops.filter (fun i => tx_zero_idx < i)).reverse
        match applyIdxList db operations BinlogOperation.invert s1 after_indices with
        | .error e => .error e
        | .ok s2 => .ok (s2, tx_zero_idx)

/-! ## SnapshotManager (src/snapshot_manager/snapshot_manager.rs)

The manager owns the applier, i.e. the store state, the materialised
operation stream, and the cursor position; the mutable methods are
state-passing, returning the Rust return value beside the new manager. -/

/-- Embedding of the `SnapshotManager` state. -/
structure SnapshotManager (σ : Type) where
  store : σ
  operations : List BinlogOperation
  current_position : Nat
deriving Inhabited

/-- Embedding of `SnapshotManager::step_forward`. -/
def step_forward {σ : Type} (db : Db σ) (sm : SnapshotManager σ) :
    Except String Bool × SnapshotManager σ :=
  if sm.operations.length ≤ sm.current_position + 1 then (.ok false, sm)
  else
    let next_op := sm.operations.getD (sm.current_position + 1) default
    match apply_operation_conditionally db sm.store next_op with
    | (.error e, s2) => (.error e, { sm with store := s2 })
    | (.ok _, s2) =>
      (.ok true, { sm with store := s2, current_position := sm.current_position + 1 })

/-- Embedding of `SnapshotManager::step_backward`. -/
def step_backward {σ : Type} (db : Db σ) (sm : SnapshotManager σ) :
    Except String Bool × SnapshotManager σ :=
  if sm.current_position = 0 then (.ok false, sm)
  else
    let current_op := sm.operations.getD sm.current_position default
    let inverted := current_op.invert
    match apply_operation_conditionally db sm.store inverted with
    | (.error e, s2) => (.error e, { sm with store := s2 })
    | (.ok _, s2) =>
      (.ok true, { sm with store := s2, current_position := sm.current_position - 1 })

/-- Embedding of `SnapshotManager::step_forward_by`: iterate single
steps, stopping at the boundary, propagating errors, and counting the
steps taken. -/
def step_forward_by {σ : Type} (db : Db σ) :
    Nat → SnapshotManager σ → Except String Nat × SnapshotManager σ
  | 0, sm => (.ok 0, sm)
  | count + 1, sm =>
    match step_forward db sm with
    | (.error e, sm2) => (.error e, sm2)
    | (.ok false, sm2) => (.ok 0, sm2)
    | (.ok true, sm2) =>
      match step_forward_by db count sm2 with
      | (.error e, sm3) => (.error e, sm3)
      | (.ok k, sm3) => (.ok (k + 1), sm3)

/-- Embedding of `SnapshotManager::step_backward_by`. -/
def step_backward_by {σ : Type} (db : Db σ) :
    Nat → SnapshotManager σ → Except String Nat × SnapshotManager σ
  | 0, sm => (.ok 0, sm)
  | count + 1, sm =>
    match step_backward db sm with
    | (.error e, sm2) => (.error e, sm2)
    | (.ok false, sm2) => (.ok 0, sm2)
    | (.ok true, sm2) =>
      match step_backward_by db count sm2 with
      | (.error e, sm3) => (.error e, sm3)
      | (.ok k, sm3) => (.ok (k + 1), sm3)

/-- Embedding of `SnapshotManager::goto_position`. -/
def goto_position {σ : Type} (db : Db σ) (sm : SnapshotManager σ)
    (target_position : Nat) : Except String Unit × SnapshotManager σ :=
  if sm.operations.length ≤ target_position then
    (.error "Target position out of bounds", sm)
  else if sm.current_position < target_position then
    let steps := target_position - sm.current_position
    match step_forward_by db steps sm with
    | (.error e, sm2) => (.error e, sm2)
    | (.ok _, sm2) => (.ok (), sm2)
  else if target_position < sm.current_position then
    let steps := sm.current_position - target_position
    match step_backward_by db steps sm with
    | (.error e, sm2) => (.error e, sm2)
    | (.ok _, sm2) => (.ok (), sm2)
  else (.ok (), sm)

/-- Lexicographic comparison of character lists; for the ASCII strings
involved this coincides with Rust `str::cmp`. -/
def cmpChars : List Char → List Char → Ordering
  | [], [] => .eq
  | [], _ :: _ => .lt
  | _ :: _, [] => .gt
  | a :: as, b :: bs => if a < b then .lt else if b < a then .gt else cmpChars as bs

/-- The `Ordering as i64` cast of the source: Less, Equal and Greater
are represented as -1, 0 and 1. -/
def ordToInt : Ordering → Int
  | .lt => -1
  | .eq => 0
  | .gt => 1

/-- The scan loop inside `goto_timestamp`: walk the enumerated stream
keeping the index of the smallest "difference" seen so far, where the
difference of two timestamps is the absolute value of their comparison
cast to an integer; break immediately on an exact match. -/
def closestScan (target : String) : List (Nat × BinlogOperation) → Nat → Int → Nat
  | [], closest_idx, _ => closest_idx
  | (idx, op) :: rest, closest_idx, closest_diff =>
    match op.timestamp with
    | none => closestScan target rest closest_idx closest_diff
    | some ts =>
      if ts = target then idx
      else
        let diff : Int := ((ordToInt (cmpChars ts.toList target.toList)).natAbs : Int)
        if diff < closest_diff then closestScan target rest idx diff
        else closestScan target rest closest_idx closest_diff

/-- Embedding of `SnapshotManager::goto_timestamp`: scan for the index
chosen by `closestScan` starting from index 0 and the i64 maximum as the
initial difference, then `goto_position` it. -/
def goto_timestamp {σ : Type} (db : Db σ) (sm : SnapshotManager σ)
    (target_timestamp : String) : Except String Unit × SnapshotManager σ :=
  let closest_idx := closestScan target_timestamp sm.operations.enum 0 (2 ^ 63 - 1)
  goto_position db sm closest_idx

/-! ## Text binlog line matchers (src/parser/text_binlog_parser.rs)

The anchored regular expressions of the parser are modelled as
deterministic character-list matchers. For each pattern the model follows
the leftmost-first semantics of the regex crate; greedy repetition over a
character class followed by a character outside the class needs no
backtracking, so maximal-munch scanning is exact. The `\s` class is
modelled by the ASCII whitespace characters. -/

/-- Maximal-munch split of a character list at the first character
failing the predicate, the model of greedy repetition over a character
class. -/
def spanP (p : Char → Bool) : List Char → List Char × List Char
  | [] => ([], [])
  | c :: rest =>
    if p c then
      let (a, b) := spanP p rest
      (c :: a, b)
    else ([], c :: rest)

/-- ASCII whitespace, the model of the regex class `\s`. -/
def isWs (c : Char) : Bool :=
  c == ' ' || c == Char.ofNat 9 || c == Char.ofNat 10 || c == Char.ofNat 11
    || c == Char.ofNat 12 || c == Char.ofNat 13

/-- The time tail of the header pattern `\d{1,2}:\d{2}:\d{2}`, returning
the matched characters. -/
def matchTime (cs : List Char) : Option (List Char) :=
  let (hs, r1) := spanP Char.isDigit cs
  if hs.length = 0 ∨ 2 < hs.length then none
  else
    match r1 with
    | ':' :: a :: b :: ':' :: c :: d :: _ =>
      if a.isDigit && b.isDigit && c.isDigit && d.isDigit then
        some (hs ++ ':' :: a :: b :: ':' :: [c, d])
      else none
    | _ => none

/-- Capture of `timestamp_regex`, `^#(\d{6})\s+(\d{1,2}:\d{2}:\d{2})`:
the date and time capture groups of an event header line. -/
def tsCapture (line : String) : Option (String × String) :=
  match line.toList with
  | '#' :: rest =>
    let (ds, r1) := spanP Char.isDigit rest
    if ds.length ≠ 6 then none
    else
      let (ws, r2) := spanP isWs r1
      if ws.isEmpty then none
      else (matchTime r2).map (fun t => (ds.asString, t.asString))
  | _ => none

/-- Attempted match of `end_log_pos\s+(\d+)` at the head of the list. -/
def tryPosAt (cs : List Char) : Option (List Char) :=
  if ("end_log_pos".toList).isPrefixOf cs then
    let rest := cs.drop 11
    let (ws, r1) := spanP isWs rest
    if ws.isEmpty then none
    else
      let (ds, _) := spanP Char.isDigit r1
      if ds.isEmpty then none else some ds
  else none

/-- Leftmost search for `position_regex`, `end_log_pos\s+(\d+)`,
returning the digit capture. -/
def posSearch : List Char → Option (List Char)
  | [] => none
  | cs@(_ :: rest) =>
    match tryPosAt cs with
    | some ds => some ds
    | none => posSearch rest

/-- Capture of `position_regex` on a line. -/
def posCapture (line : String) : Option String :=
  (posSearch line.toList).map List.asString

/-- Capture of the operation-start patterns `^<literal>\s+(.+)`: after
the anchored literal, at least one whitespace character, then the greedy
rest-of-line capture, which backtracks one whitespace character when the
line would otherwise end at the whitespace run. -/
def afterLiteral (lit : String) (line : String) : Option String :=
  let pl := lit.toList
  let cs := line.toList
  if pl.isPrefixOf cs then
    let rest := cs.drop pl.length
    let (ws, r1) := spanP isWs rest
    if ws.isEmpty then none
    else if r1.isEmpty then
      if 2 ≤ ws.length then some ((ws.drop (ws.length - 1)).asString) else none
    else some r1.asString
  else none

/-- Capture of `update_regex`, `^### UPDATE\s+(.+)`. -/
def updCapture (line : String) : Option String := afterLiteral "### UPDATE" line

/-- Capture of `insert_regex`, `^### INSERT INTO\s+(.+)`. -/
def insCapture (line : String) : Option String := afterLiteral "### INSERT INTO" line

/-- Capture of `delete_regex`, `^### DELETE FROM\s+(.+)`. -/
def delCapture (line : String) : Option String := afterLiteral "### DELETE FROM" line

/-- Attempted match of the backtick-quoted identifier pair pattern at the
head of the list (the pattern of `table_name_regex`). -/
def tryTableAt (cs : List Char) : Option (String × String) :=
  match cs with
  | c :: rest =>
    if c ≠ Char.ofNat 96 then none
    else
      let (a, r1) := spanP (fun x => x != Char.ofNat 96) rest
      if a.isEmpty then none
      else
        match r1 with
        | b1 :: '.' :: b2 :: r2 =>
          if b1 = Char.ofNat 96 ∧ b2 = Char.ofNat 96 then
            let (b, r3) := spanP (fun x => x != Char.ofNat 96) r2
            if b.isEmpty then none
            else
              match r3 with
              | b3 :: _ => if b3 = Char.ofNat 96 then some (a.asString, b.asString) else none
              | [] => none
          else none
        | _ => none
  | [] => none

/-- Leftmost search for `table_name_regex` over a table path. -/
def tableSearch : List Char → Option (String × String)
  | [] => none
  | cs@(_ :: rest) =>
    match tryTableAt cs with
    | some r => some r
    | none => tableSearch rest

/-- Embedding of `TextBinlogParser::extract_table_name`. -/
def extract_table_name (table_path : String) : String × String :=
  match tableSearch table_path.toList with
  | some (db, table) => (db, table)
  | none => ("", table_path)

/-- Capture of `column_value_regex`, `^###\s+@(\d+)=(.*)$`: the column
index digits and the raw value text. -/
def colValCapture (line : String) : Option (String × String) :=
  let cs := line.toList
  if ("###".toList).isPrefixOf cs then
    let rest := cs.drop 3
    let (ws, r1) := spanP isWs rest
    if ws.isEmpty then none
    else
      match r1 with
      | '@' :: r2 =>
        let (ds, r3) := spanP Char.isDigit r2
        if ds.isEmpty then none
        else
          match r3 with
          | '=' :: v => some (ds.asString, v.asString)
          | _ => none
      | _ => none
  else none

/-! ## Text binlog parsing (src/parser/text_binlog_parser.rs)

The parser is embedded over the decoded line list (file access, the
10 MiB buffer and the lossy UTF-8 decoding are the file abstraction) and
over a schema lookup function `sch` abstracting `get_table_schema` on
the connection: `sch table` is the column list of the table, empty when
the table is unknown (the memoisation cache is performance only). -/

/-- Does a line contain one of the three operation start markers, the
`Stop if we hit another SQL statement` test of the value loops. -/
def isOpStartSub (line : String) : Bool :=
  strContains line "### UPDATE" || strContains line "### INSERT INTO"
    || strContains line "### DELETE FROM"

/-- The `where_values`/`set_values` maps from 1-based column index to
raw value, modelling the `HashMap<usize, String>`. -/
def ValMap : Type := Nat → Option String

/-- Insertion into a value map (later inserts win, like `HashMap`). -/
def mapInsert (k : Nat) (v : String) (m : ValMap) : ValMap :=
  fun x => if x = k then some v else m x

/-- The empty value map. -/
def emptyMap : ValMap := fun _ => none

/-- Embedding of `skip_to_next_sql_operation`: consume `###`-prefixed
lines up to but not including the next operation start or the first
non-`###` line. -/
def skip_to_next_sql_operation : List String → List String
  | [] => []
  | line :: rest =>
    if ¬ strStarts line "###" then line :: rest
    else if isOpStartSub line then line :: rest
    else skip_to_next_sql_operation rest

/-- The column-value collection loop shared by the INSERT values, DELETE
WHERE and UPDATE SET sections: peek at each line, stop at the first
non-`###` line or operation start, otherwise consume it and record its
column value if it matches the column-value pattern; a column index that
overflows `usize` surfaces as a parse error through `?`. -/
def valuesLoop : List String → ValMap → Except String (ValMap × List String)
  | [], m => .ok (m, [])
  | line :: rest, m =>
    if ¬ strStarts line "###" then .ok (m, line :: rest)
    else if isOpStartSub line then .ok (m, line :: rest)
    else
      match colValCapture line with
      | some (numStr, v) =>
        match parseUsize numStr.toList with
        | some k => valuesLoop rest (mapInsert k v m)
        | none => .error "invalid digit found in string"
      | none => valuesLoop rest m

/-- The UPDATE WHERE-section loop: like `valuesLoop` but additionally
switching on a line containing `### SET`, which is consumed; the Bool of
the result is the `found_set` flag. -/
def whereLoopU : List String → ValMap → Except String (ValMap × Bool × List String)
  | [], m => .ok (m, false, [])
  | line :: rest, m =>
    if ¬ strStarts line "###" then .ok (m, false, line :: rest)
    else if isOpStartSub line then .ok (m, false, line :: rest)
    else if strContains line "### SET" then .ok (m, true, rest)
    else
      match colValCapture line with
      | some (numStr, v) =>
        match parseUsize numStr.toList with
        | some k => whereLoopU rest (mapInsert k v m)
        | none => .error "invalid digit found in string"
      | none => whereLoopU rest m

/-- Materialisation of a fixed-length value vector from a value map: for
each 0-based column index, the value at 1-based key `i + 1`, or the
literal NULL when absent. -/
def materialise (n : Nat) (m : ValMap) : List String :=
  (List.range n).map (fun i => (m (i + 1)).getD "NULL")

/-- Embedding of `TextBinlogParser::parse_update`. -/
def parse_update (sch : String → List String) (table_path : String)
    (timestamp : Option String) (position : Option Nat) (lines : List String) :
    Except String (Option BinlogOperation × List String) :=
  let (db, table) := extract_table_name table_path
  let columns := sch table
  if columns.isEmpty then .ok (none, skip_to_next_sql_operation lines)
  else
    match whereLoopU lines emptyMap with
    | .error e => .error e
    | .ok (where_values, found_set, rest1) =>
      match (if found_set then valuesLoop rest1 emptyMap else .ok (emptyMap, rest1)) with
      | .error e => .error e
      | .ok (set_values, rest2) =>
        .ok (some
          { timestamp := timestamp
            position := position
            operation_type := .Update
            table_name := table
            database := db
            columns := columns
            before_values := some (materialise columns.length where_values)
            after_values := some (materialise columns.length set_values) }, rest2)

/-- Embedding of `TextBinlogParser::parse_insert`. -/
def parse_insert (sch : String → List String) (table_path : String)
    (timestamp : Option String) (position : Option Nat) (lines : List String) :
    Except String (Option BinlogOperation × List String) :=
  let (db, table) := extract_table_name table_path
  let columns := sch table
  if columns.isEmpty then .ok (none, skip_to_next_sql_operation lines)
  else
    match valuesLoop lines emptyMap with
    | .error e => .error e
    | .ok (values, rest1) =>
      .ok (some
        { timestamp := timestamp
          position := position
          operation_type := .Insert
          table_name := table
          database := db
          columns := columns
          before_values := none
          after_values := some (materialise columns.length values) }, rest1)

/-- Embedding of `TextBinlogParser::parse_delete`. -/
def parse_delete (sch : String → List String) (table_path : String)
    (timestamp : Option String) (position : Option Nat) (lines : List String) :
    Except String (Option BinlogOperation × List String) :=
  let (db, table) := extract_table_name table_path
  let columns := sch table
  if columns.isEmpty then .ok (none, skip_to_next_sql_operation lines)
  else
    match valuesLoop lines emptyMap with
    | .error e => .error e
    | .ok (where_values, rest1) =>
      .ok (some
        { timestamp := timestamp
          position := position
          operation_type := .Delete
          table_name := table
          database := db
          columns := columns
          before_values := some (materialise columns.length where_values)
          after_values := none }, rest1)

/-- The mutable locals of the `parse_file` loop. -/
structure ParseState where
  current_timestamp : Option String
  current_position : Option Nat
  in_transaction : Bool
  pending_operations : List BinlogOperation
  out : List BinlogOperation
deriving Repr

/-- Routing of a parsed operation: inside a transaction it is buffered
into `pending_operations`, outside it is pushed directly onto the output
stream (the branch the source comments expect to be dead). -/
def pushOp (st : ParseState) : Option BinlogOperation → ParseState
  | none => st
  | some op =>
    if st.in_transaction then { st with pending_operations := st.pending_operations ++ [op] }
    else { st with out := st.out ++ [op] }

/-- Update of the current timestamp and position from a line, from the
two unconditional `if let Some(captures)` blocks of the loop body. -/
def stampState (st : ParseState) (line : String) : ParseState :=
  let st1 := match tsCapture line with
    | some (d, t) => { st with current_timestamp := some (d ++ " " ++ t) }
    | none => st
  match posCapture line with
  | some ds =>
    match parseU32 ds.toList with
    | some n => { st1 with current_position := some n }
    | none => st1
  | none => st1

/-- Embedding of the `parse_file` line loop: transaction framing lines
are handled first (and `continue`), then the header captures update the
stamp, then each of the three operation patterns is tried, its
sub-parser consuming the following lines. Every iteration consumes at
least the current line, so the loop is driven by a fuel budget of one
unit per input line; `parse_file` supplies `lines.length`, which the
sub-parsers can never exceed since they only consume input lines, so the
fuel-exhausted case is unreachable. -/
def parseLines (sch : String → List String) : Nat → List String → ParseState →
    Except String (List BinlogOperation)
  | _, [], st => .ok st.out
  | 0, _ :: _, st => .ok st.out
  | fuel + 1, line :: rest, st =>
    if strStarts line "BEGIN" then
      parseLines sch fuel rest { st with in_transaction := true, pending_operations := [] }
    else if strStarts line "COMMIT" then
      parseLines sch fuel rest
        { st with
          out := if st.in_transaction then st.out ++ st.pending_operations else st.out
          in_transaction := false
          pending_operations := [] }
    else if strStarts line "ROLLBACK" then
      parseLines sch fuel rest
        { st with
          pending_operations := if st.in_transaction then [] else st.pending_operations
          in_transaction := false }
    else
      let st2 := stampState st line
      match updCapture line with
      | some tp =>
        match parse_update sch tp st2.current_timestamp st2.current_position rest with
        | .error e => .error e
        | .ok (o, rest2) => parseLines sch fuel rest2 (pushOp st2 o)
      | none =>
        match insCapture line with
        | some tp =>
          match parse_insert sch tp st2.current_timestamp st2.current_position rest with
          | .error e => .error e
          | .ok (o, rest2) => parseLines sch fuel rest2 (pushOp st2 o)
        | none =>
          match delCapture line with
          | some tp =>
            match parse_delete sch tp st2.current_timestamp st2.current_position rest with
            | .error e => .error e
            | .ok (o, rest2) => parseLines sch fuel rest2 (pushOp st2 o)
          | none => parseLines sch fuel rest st2

/-- Embedding of `TextBinlogParser::parse_file` over the decoded line
list. -/
def parse_file (sch : String → List String) (lines : List String) :
    Except String (List BinlogOperation) :=
  parseLines sch lines.length lines
    { current_timestamp := none
      current_position := none
      in_transaction := false
      pending_operations := []
      out := [] }

/-! ## Specification-side definitions

Definitions in this section are worded from the specification text, for
comparison with the embedded code: the conditional-apply trace of the
normaliser, the window index set, the rendered SQL clauses, the strict
and relaxed timestamp shapes, and an item-level change log with its
transaction-framing semantics. -/

/-- The conditional-apply sequence: apply each operation of the list
conditionally in order, threading the store state and aborting on the
first store error. A normalisation run is specified as this sequence
over the trace of operations the claim lists. -/
def applyList {σ : Type} (db : Db σ) : σ → List BinlogOperation → Except String σ
  | s, [] => .ok s
  | s, op :: rest =>
    match apply_operation_conditionally db s op with
    | (.error e, _) => .error e
    | (.ok _, s2) => applyList db s2 rest

/-- The set of stream indices whose operation timestamps lie in the
window, in stream order. -/
def inWindowIdx (operations : List BinlogOperation) (lo hi : BinlogTimestamp) :
    List Nat :=
  (List.range operations.length).filter
    (fun i => opInWindow lo hi (operations.getD i default))

/-- The column/value equality fragments of a SET clause, one per column
in order. -/
def eqParts (cols vals : List String) : List String :=
  List.zipWith (fun c v => c ++ " = " ++ v) cols vals

/-- The SET clause of the specification: every column as col = after[i],
comma separated. -/
def setClause (cols vals : List String) : String :=
  String.intercalate ", " (eqParts cols vals)

/-- The WHERE fragments of the specification: exactly the columns whose
image value is not the literal NULL. -/
def whereParts (cols vals : List String) : List String :=
  ((cols.zip vals).filter (fun p => p.2 ≠ "NULL")).map (fun p => p.1 ++ " = " ++ p.2)

/-- Length of the longest common prefix of two character lists, used to
compare candidate anchors of `goto_timestamp` lexicographically. -/
def lcpLen : List Char → List Char → Nat
  | a :: as, b :: bs => if a = b then lcpLen as bs + 1 else 0
  | _, _ => 0

/-- Raw base-10 value of a digit list. -/
def listVal (cs : List Char) : Nat := cs.foldl (fun a c => a * 10 + digitVal c) 0

/-- The strict timestamp shape claimed by the specification: exactly one
space separating a 6-digit date from a time of three non-empty
colon-separated all-digit components, with the date and time values in
calendar range. -/
def strictShape (s : String) : Bool :=
  match splitChar ' ' s.toList with
  | [d, t] =>
    match splitChar ':' t with
    | [hc, mc, sc] =>
      d.length == 6 && d.all Char.isDigit
        && !hc.isEmpty && hc.all Char.isDigit
        && !mc.isEmpty && mc.all Char.isDigit
        && !sc.isEmpty && sc.all Char.isDigit
        && (fromYmd? (2000 + listVal (d.take 2)) (listVal ((d.drop 2).take 2))
              (listVal (d.drop 4))).isSome
        && (fromHms? (listVal hc) (listVal mc) (listVal sc)).isSome
    | _ => false
  | _ => false

/-- The relaxed timestamp shape actually accepted: as the strict shape,
except that each of the month, day, hour, minute and second fields is
parsed by the Rust unsigned integer parser, which tolerates one leading
plus sign in front of the digits. -/
def looseShape (s : String) : Bool :=
  match splitChar ' ' s.toList with
  | [d, t] =>
    match splitChar ':' t with
    | [hc, mc, sc] =>
      d.length == 6 &&
      (match parseI32 ('2' :: '0' :: d.take 2), parseU32 ((d.drop 2).take 2),
          parseU32 (d.drop 4), parseU32 hc, parseU32 mc, parseU32 sc with
       | some y, some mo, some da, some h, some mi, some se =>
         (fromYmd? y mo da).isSome && (fromHms? h mi se).isSome
       | _, _, _, _, _, _ => false)
    | _ => false
  | _ => false

/-- An item of an abstract change log: transaction framing or a one-row
INSERT against the single known table. -/
inductive LogItem where
  | beginTx
  | commitTx
  | rollbackTx
  | ins (v : String)
deriving DecidableEq, Repr

/-- Rendering of an abstract item into the concrete log lines the text
parser consumes. -/
def renderItem : LogItem → List String
  | .beginTx => ["BEGIN"]
  | .commitTx => ["COMMIT"]
  | .rollbackTx => ["ROLLBACK"]
  | .ins v => ["### INSERT INTO `main`.`users`", "###   @1=" ++ v]

/-- The schema of the single-table fixture: the snapshot holds one table
`users` with the single column `id`. -/
def usersSchema : String → List String := fun t => if t = "users" then ["id"] else []

/-- A rendered INSERT value must not smuggle an operation-start marker
into its line; digit strings, the values of the fixture column, cannot. -/
def goodItem : LogItem → Bool
  | .ins v => v.toList.all Char.isDigit
  | _ => true

/-- The operation the parser materialises for a rendered INSERT item
under the current stamp. -/
def insOpOf (ts : Option String) (pos : Option Nat) (v : String) : BinlogOperation :=
  { timestamp := ts
    position := pos
    operation_type := .Insert
    table_name := "users"
    database := "main"
    columns := ["id"]
    before_values := none
    after_values := some [v] }

/-- The transaction-framing semantics of §4.D at the item level: BEGIN
opens a transaction and clears the buffer, an operation is buffered
inside a transaction and emitted directly outside one, COMMIT flushes
the buffer in order, ROLLBACK discards it. -/
def txFold (ts : Option String) (pos : Option Nat) :
    List LogItem → Bool → List BinlogOperation → List BinlogOperation
  | [], _, _ => []
  | .beginTx :: rest, _, _ => txFold ts pos rest true []
  | .commitTx :: rest, inTx, pending =>
    (if inTx then pending else []) ++ txFold ts pos rest false []
  | .rollbackTx :: rest, inTx, pending =>
    txFold ts pos rest false (if inTx then [] else pending)
  | .ins v :: rest, true, pending => txFold ts pos rest true (pending ++ [insOpOf ts pos v])
  | .ins v :: rest, false, pending => insOpOf ts pos v :: txFold ts pos rest false pending

/-! ## Concrete fixtures for witnesses and evaluations -/

/-- A store on which every schema probe fails (the table is unknown) and
every execution succeeds without observable effect. -/
def trivDb : Db Unit :=
  { schemaOf := fun _ _ => none
    prepareOk := fun _ _ => true
    queryRow := fun _ _ => .ok none
    execute := fun s _ => (.ok (), s) }

/-- A store like `trivDb` whose statement execution always fails. -/
def errDb : Db Unit :=
  { schemaOf := fun _ _ => none
    prepareOk := fun _ _ => true
    queryRow := fun _ _ => .ok none
    execute := fun s _ => (.error "db locked", s) }

/-- A store holding one `users` row whose `id` reads back as 1. -/
def rowDb : Db Unit :=
  { schemaOf := fun _ _ => some [("id", "INTEGER")]
    prepareOk := fun _ _ => true
    queryRow := fun _ _ => .ok (some [.ok (some "1")])
    execute := fun s _ => (.ok (), s) }

/-- A one-column INSERT of id 1 into `users`. -/
def insOpA : BinlogOperation := insOpOf none none "1"

/-- A one-column UPDATE of `users` from id 1 to id 2. -/
def updOpA : BinlogOperation :=
  { timestamp := none
    position := none
    operation_type := .Update
    table_name := "users"
    database := "main"
    columns := ["id"]
    before_values := some ["1"]
    after_values := some ["2"] }

/-- A one-column DELETE of id 9 from `users`. -/
def delOpA : BinlogOperation :=
  { timestamp := none
    position := none
    operation_type := .Delete
    table_name := "users"
    database := "main"
    columns := ["id"]
    before_values := some ["9"]
    after_values := none }

/-- A timestamped zero-column UPDATE, conditionally skippable against
any store. -/
def updAt (ts : String) : BinlogOperation :=
  { timestamp := some ts
    position := none
    operation_type := .Update
    table_name := "t"
    database := "d"
    columns := []
    before_values := some []
    after_values := some [] }

/-- The two-operation stream of the `goto_timestamp` evaluation: an
early operation and a much later one, the cursor on the later one. -/
def smC5 : SnapshotManager Unit :=
  { store := ()
    operations := [updAt "251101 00:00:00", updAt "251130 23:59:59"]
    current_position := 1 }

/-- A one-operation cursor standing at both boundaries. -/
def smBoundary : SnapshotManager Unit :=
  { store := (), operations := [insOpA], current_position := 0 }

/-- Cursor fixture whose next forward step must execute a failing
INSERT. -/
def smErrF : SnapshotManager Unit :=
  { store := (), operations := [delOpA, insOpA], current_position := 0 }

/-- Cursor fixture whose next backward step inverts a DELETE into a
failing INSERT. -/
def smErrB : SnapshotManager Unit :=
  { store := (), operations := [insOpA, delOpA], current_position := 1 }

/-- Ten identically timestamped in-window operations for the normaliser
witness. -/
def ops10 : List BinlogOperation := List.replicate 10 (updAt "251108 12:00:00")

/-- A small item log: one INSERT outside any transaction, one rolled
back, one committed. -/
def items0 : List LogItem :=
  [.ins "7", .beginTx, .ins "8", .rollbackTx, .beginTx, .ins "9", .commitTx]

/-- An INSERT whose whole identifying image is the literal NULL. -/
def nullInsOp : BinlogOperation :=
  { timestamp := none
    position := none
    operation_type := .Insert
    table_name := "users"
    database := "main"
    columns := ["id", "name"]
    before_values := none
    after_values := some ["NULL", "NULL"] }

/-- A DELETE whose whole identifying image is the literal NULL. -/
def nullDelOp : BinlogOperation :=
  { nullInsOp with
    operation_type := .Delete
    before_values := some ["NULL", "NULL"]
    after_values := none }

/-- A two-column UPDATE with one NULL pre-image column. -/
def upd6 : BinlogOperation :=
  { timestamp := none
    position := none
    operation_type := .Update
    table_name := "t"
    database := "d"
    columns := ["id", "name"]
    before_values := some ["1", "NULL"]
    after_values := some ["1", "2"] }

/-- A two-column DELETE with an all-NULL pre-image. -/
def del6 : BinlogOperation :=
  { upd6 with
    operation_type := .Delete
    before_values := some ["NULL", "NULL"]
    after_values := none }

/-! ## Claim theorems -/

/-- C3: for every Operation O satisfying the data model (no before image
on an Insert, no after image on a Delete), invert (invert O) = O;
moreover invert maps Insert to Delete with the after image moved to
before and after cleared, Delete to Insert with the before image moved
to after and before cleared, and Update to the Update with swapped
images, preserving timestamp, position, database, table and columns in
every case. -/
theorem invert_involution (op : BinlogOperation)
    (hIns : op.operation_type = .Insert → op.before_values = none)
    (hDel : op.operation_type = .Delete → op.after_values = none) :
    op.invert.invert = op ∧
    (op.operation_type = .Insert →
      op.invert = { op with operation_type := .Delete,
                            before_values := op.after_values, after_values := none }) ∧
    (op.operation_type = .Delete →
      op.invert = { op with operation_type := .Insert,
                            before_values := none, after_values := op.before_values }) ∧
    (op.operation_type = .Update →
      op.invert = { op with before_values := op.after_values,
                            after_values := op.before_values }) ∧
    op.invert.timestamp = op.timestamp ∧ op.invert.position = op.position ∧
    op.invert.database = op.database ∧ op.invert.table_name = op.table_name ∧
    op.invert.columns = op.columns := by
  obtain ⟨ts, pos, ty, tn, dbn, cols, bv, av⟩ := op
  cases ty <;> simp_all [BinlogOperation.invert]

/-- Witness for C3 at a concrete Insert. -/
theorem invert_involution_witness : insOpA.invert.invert = insOpA :=
  (invert_involution insOpA (fun _ => rfl) (fun h => absurd h (by decide))).1

/-- C7: step_backward at position 0 returns false and leaves the whole
manager, so both the cursor position and the store, unchanged; likewise
step_forward when the cursor stands on the last index of the stream. -/
theorem step_boundary_no_mutation {σ : Type} (db : Db σ) (sm : SnapshotManager σ) :
    (sm.current_position = 0 → step_backward db sm = (.ok false, sm)) ∧
    (sm.current_position + 1 = sm.operations.length → step_forward db sm = (.ok false, sm)) := by
  constructor
  · intro h
    simp [step_backward, h]
  · intro h
    simp [step_forward, ← h]

/-- Witness for C7 on a one-operation stream whose cursor stands at both
boundaries. -/
theorem step_boundary_no_mutation_witness :
    step_backward trivDb smBoundary = (.ok false, smBoundary) ∧
    step_forward trivDb smBoundary = (.ok false, smBoundary) :=
  ⟨(step_boundary_no_mutation trivDb smBoundary).1 rfl,
   (step_boundary_no_mutation trivDb smBoundary).2 rfl⟩

/-- C10: when the conditional apply inside step_forward or step_backward
fails with a store error, the error propagates to the caller and the
cursor position is unchanged. -/
theorem step_error_propagation {σ : Type} (db : Db σ) (sm : SnapshotManager σ) (e : String) :
    (sm.current_position + 1 < sm.operations.length →
      (apply_operation_conditionally db sm.store
        (sm.operations.getD (sm.current_position + 1) default)).1 = .error e →
      (step_forward db sm).1 = .error e ∧
      (step_forward db sm).2.current_position = sm.current_position) ∧
    (sm.current_position ≠ 0 →
      (apply_operation_conditionally db sm.store
        ((sm.operations.getD sm.current_position default).invert)).1 = .error e →
      (step_backward db sm).1 = .error e ∧
      (step_backward db sm).2.current_position = sm.current_position) := by
  constructor
  · intro hlt happ
    have hguard : ¬ (sm.operations.length ≤ sm.current_position + 1) := by omega
    rcases hap : apply_operation_conditionally db sm.store
        (sm.operations.getD (sm.current_position + 1) default) with ⟨r, s2⟩
    rw [hap] at happ
    dsimp at happ
    subst happ
    unfold step_forward
    rw [if_neg hguard]
    dsimp only
    rw [hap]
    exact ⟨rfl, rfl⟩
  · intro hne happ
    rcases hap : apply_operation_conditionally db sm.store
        ((sm.operations.getD sm.current_position default).invert) with ⟨r, s2⟩
    rw [hap] at happ
    dsimp at happ
    subst happ
    unfold step_backward
    rw [if_neg hne]
    dsimp only
    rw [hap]
    exact ⟨rfl, rfl⟩

/-- Witness for C10: against a store whose execution fails, a forward
step onto a fresh INSERT and a backward step inverting a DELETE both
surface the error and leave the position alone. -/
theorem step_error_propagation_witness :
    ((step_forward errDb smErrF).1 = .error "db locked" ∧
      (step_forward errDb smErrF).2.current_position = 0) ∧
    ((step_backward errDb smErrB).1 = .error "db locked" ∧
      (step_backward errDb smErrB).2.current_position = 1) :=
  ⟨(step_error_propagation errDb smErrF "db locked").1 (by decide) (by decide),
   (step_error_propagation errDb smErrB "db locked").2 (by decide) (by decide)⟩

/-- C1: the decision table of should_apply on a known table, conditional
on the row fetched by the identifying image: an Insert applies on an
absent row, skips on a row equal to the after image, applies on an
unequal row; an Update or Delete skips on an absent row, applies on a
row equal to the before image, skips on an unequal row. -/
theorem should_apply_decision_table {σ : Type} (db : Db σ) (s : σ) (op : BinlogOperation) :
    (∀ af, op.operation_type = .Insert → op.after_values = some af →
      (fetch_current_row db s op.table_name op.columns af = .ok none →
        should_apply db s op = .ok true) ∧
      (fetch_current_row db s op.table_name op.columns af = .ok (some af) →
        should_apply db s op = .ok false) ∧
      (∀ cur, cur ≠ af →
        fetch_current_row db s op.table_name op.columns af = .ok (some cur) →
        should_apply db s op = .ok true)) ∧
    (∀ bf, (op.operation_type = .Update ∨ op.operation_type = .Delete) →
      op.before_values = some bf →
      (fetch_current_row db s op.table_name op.columns bf = .ok none →
        should_apply db s op = .ok false) ∧
      (fetch_current_row db s op.table_name op.columns bf = .ok (some bf) →
        should_apply db s op = .ok true) ∧
      (∀ cur, cur ≠ bf →
        fetch_current_row db s op.table_name op.columns bf = .ok (some cur) →
        should_apply db s op = .ok false)) := by
  constructor
  · intro af hty hav
    refine ⟨fun hf => ?_, fun hf => ?_, fun cur hne hf => ?_⟩
    · simp [should_apply, hty, hav, hf]
    · simp [should_apply, hty, hav, hf]
    · simp [should_apply, hty, hav, hf, hne]
  · intro bf hty hbv
    rcases hty with hty | hty
    all_goals refine ⟨fun hf => ?_, fun hf => ?_, fun cur hne hf => ?_⟩
    any_goals simp [should_apply, hty, hbv, hf]
    all_goals simp [should_apply, hty, hbv, hf, hne]

/-- Witness for C1: a fresh Insert applies against an empty probe, the
same Insert skips once the row reads back equal, and an Update whose
before image matches the read-back row applies. -/
theorem should_apply_decision_table_witness :
    should_apply trivDb () insOpA = .ok true ∧
    should_apply rowDb () insOpA = .ok false ∧
    should_apply rowDb () updOpA = .ok true :=
  ⟨((should_apply_decision_table trivDb () insOpA).1 ["1"] rfl rfl).1 (by decide),
   ((should_apply_decision_table rowDb () insOpA).1 ["1"] rfl rfl).2.1 (by decide),
   ((should_apply_decision_table rowDb () updOpA).2 ["1"] (Or.inl rfl) rfl).2.1 (by decide)⟩

/-- C9: when every value of the identifying image is the literal NULL,
fetch_current_row returns None against every store state without
touching it, so the Insert decision is apply and the Update or Delete
decision is skip. -/
theorem fetch_all_null {σ : Type} (db : Db σ) (s : σ) (vals : List String)
    (hnull : ∀ v ∈ vals, v = "NULL") :
    (∀ table cols, fetch_current_row db s table cols vals = .ok none) ∧
    (∀ op, op.operation_type = .Insert → op.after_values = some vals →
      should_apply db s op = .ok true) ∧
    (∀ op, (op.operation_type = .Update ∨ op.operation_type = .Delete) →
      op.before_values = some vals → should_apply db s op = .ok false) := by
  have hfetch : ∀ table cols, fetch_current_row db s table cols vals = .ok none := by
    intro table cols
    have hW : ((cols.zip vals).filter (fun p => !decide (p.2 = "NULL"))) = [] := by
      rw [List.filter_eq_nil_iff]
      intro p hp
      have hv := (List.of_mem_zip hp).2
      simp [hnull _ hv]
    simp [fetch_current_row, hW]
  refine ⟨hfetch, ?_, ?_⟩
  · intro op hty hav
    simp [should_apply, hty, hav, hfetch]
  · intro op hty hbv
    rcases hty with hty | hty <;> simp [should_apply, hty, hbv, hfetch]

/-- Witness for C9 on an all-NULL image over two columns. -/
theorem fetch_all_null_witness :
    fetch_current_row trivDb () "users" ["id", "name"] ["NULL", "NULL"] = .ok none ∧
    should_apply trivDb () nullInsOp = .ok true ∧
    should_apply trivDb () nullDelOp = .ok false :=
  ⟨(fetch_all_null trivDb () ["NULL", "NULL"] (by decide)).1 "users" ["id", "name"],
   (fetch_all_null trivDb () ["NULL", "NULL"] (by decide)).2.1 nullInsOp rfl rfl,
   (fetch_all_null trivDb () ["NULL", "NULL"] (by decide)).2.2 nullDelOp (Or.inr rfl) rfl⟩

theorem map_zip_eq_eqParts : ∀ xs ys : List String,
    (xs.zip ys).map (fun p => p.1 ++ " = " ++ p.2) = eqParts xs ys := by
  intro xs
  induction xs with
  | nil => intro ys; simp [eqParts]
  | cons x xs ih =>
    intro ys
    cases ys with
    | nil => simp [eqParts]
    | cons y ys => simp [eqParts, List.zip_cons_cons, ih ys]

theorem whereParts_nil_iff : ∀ (cols vals : List String),
    vals.length = cols.length →
    (whereParts cols vals = [] ↔ ∀ v ∈ vals, v = "NULL") := by
  intro cols
  induction cols with
  | nil =>
    intro vals h
    cases vals with
    | nil => simp [whereParts]
    | cons v vs => simp at h
  | cons c cs ih =>
    intro vals h
    cases vals with
    | nil => simp at h
    | cons v vs =>
      simp only [List.length_cons, Nat.succ_inj] at h
      by_cases hv : v = "NULL"
      · simp [whereParts, List.zip_cons_cons, hv] at ih ⊢
        exact ih vs h
      · simp [whereParts, List.zip_cons_cons, hv]

/-- C6: for an Update, generate_sql emits a SET clause listing every
column as col = after[i], and a WHERE clause holding exactly the columns
whose before value is not the literal NULL, joined by AND; when every
before value is NULL the WHERE clause is omitted, and a Delete with an
all-NULL before image becomes an unconditional DELETE. -/
theorem generate_sql_clauses (op : BinlogOperation) (b : List String)
    (hb : op.before_values = some b) (hlb : b.length = op.columns.length) :
    (∀ a, op.operation_type = .Update → op.after_values = some a →
      ((∀ v ∈ b, v = "NULL") →
        generate_sql op = "UPDATE " ++ op.table_name ++ " SET "
          ++ setClause op.columns a ++ ";") ∧
      ((∃ v ∈ b, v ≠ "NULL") →
        generate_sql op = "UPDATE " ++ op.table_name ++ " SET " ++ setClause op.columns a
          ++ " WHERE " ++ String.intercalate " AND " (whereParts op.columns b) ++ ";")) ∧
    (op.operation_type = .Delete →
      ((∀ v ∈ b, v = "NULL") → generate_sql op = "DELETE FROM " ++ op.table_name ++ ";") ∧
      ((∃ v ∈ b, v ≠ "NULL") →
        generate_sql op = "DELETE FROM " ++ op.table_name ++ " WHERE "
          ++ String.intercalate " AND " (whereParts op.columns b) ++ ";")) := by
  constructor
  · intro a hty hav
    constructor
    · intro hall
      have hnil : whereParts op.columns b = [] := (whereParts_nil_iff _ _ hlb).mpr hall
      simp only [generate_sql, hty, hb, hav, Option.getD_some]
      rw [show ((op.columns.zip b).filter (fun p => p.2 ≠ "NULL")).map
            (fun p => p.1 ++ " = " ++ p.2) = ([] : List String) from hnil]
      simp [setClause, map_zip_eq_eqParts]
    · intro hex
      have hnil : whereParts op.columns b ≠ [] := by
        intro hn
        rcases hex with ⟨v, hv, hvne⟩
        exact hvne ((whereParts_nil_iff _ _ hlb).mp hn v hv)
      simp only [generate_sql, hty, hb, hav, Option.getD_some]
      rw [show ((op.columns.zip b).filter (fun p => p.2 ≠ "NULL")).map
            (fun p => p.1 ++ " = " ++ p.2) = whereParts op.columns b from rfl]
      rw [if_neg (by simpa [List.isEmpty_iff] using hnil)]
      simp [setClause, map_zip_eq_eqParts, whereParts]
  · intro hty
    constructor
    · intro hall
      have hnil : whereParts op.columns b = [] := (whereParts_nil_iff _ _ hlb).mpr hall
      simp only [generate_sql, hty, hb, Option.getD_some]
      rw [show ((op.columns.zip b).filter (fun p => p.2 ≠ "NULL")).map
            (fun p => p.1 ++ " = " ++ p.2) = ([] : List String) from hnil]
      simp
    · intro hex
      have hnil : whereParts op.columns b ≠ [] := by
        intro hn
        rcases hex with ⟨v, hv, hvne⟩
        exact hvne ((whereParts_nil_iff _ _ hlb).mp hn v hv)
      simp only [generate_sql, hty, hb, Option.getD_some]
      rw [show ((op.columns.zip b).filter (fun p => p.2 ≠ "NULL")).map
            (fun p => p.1 ++ " = " ++ p.2) = whereParts op.columns b from rfl]
      rw [if_neg (by simpa [List.isEmpty_iff] using hnil)]

/-- Witness for C6: an Update whose NULL pre-image column is excluded
from the WHERE clause, and a Delete with an all-NULL pre-image becoming
unconditional. -/
theorem generate_sql_clauses_witness :
    generate_sql upd6 = "UPDATE t SET id = 1, name = 2 WHERE id = 1;" ∧
    generate_sql del6 = "DELETE FROM t;" := by
  constructor
  · have h := ((generate_sql_clauses upd6 ["1", "NULL"] rfl (by decide)).1
      ["1", "2"] rfl rfl).2 (by decide)
    rw [h]
    decide
  · have h := ((generate_sql_clauses del6 ["NULL", "NULL"] rfl (by decide)).2
      rfl).1 (by decide)
    rw [h]
    decide

/-- C5: evaluation of goto_timestamp at a stream of two timestamped
operations and a target matching neither: the scan reduces every
comparison to an absolute Ordering cast, which is 1 for every unequal
timestamp, so the cursor lands on the first timestamped operation
(index 0) although the operation at index 1 shares a 14-character prefix
with the target against 4 for index 0. -/
theorem goto_timestamp_failing_eval :
    (goto_timestamp trivDb smC5 "251130 23:59:58").1 = .ok () ∧
    (goto_timestamp trivDb smC5 "251130 23:59:58").2.current_position = 0 ∧
    lcpLen ("251130 23:59:59".toList) ("251130 23:59:58".toList) = 14 ∧
    lcpLen ("251101 00:00:00".toList) ("251130 23:59:58".toList) = 4 := by
  refine ⟨by decide, by decide, by decide, by decide⟩

theorem applyIdxList_eq {σ : Type} (db : Db σ) (ops : List BinlogOperation)
    (f : BinlogOperation → BinlogOperation) :
    ∀ (idxs : List Nat) (s : σ),
      applyIdxList db ops f s idxs
        = applyList db s (idxs.map (fun i => f (ops.getD i default))) := by
  intro idxs
  induction idxs with
  | nil => intro s; rfl
  | cons i is ih =>
    intro s
    simp only [applyIdxList, List.map_cons, applyList]
    rcases apply_operation_conditionally db s (f (ops.getD i default)) with ⟨r, s2⟩
    cases r <;> simp [ih]

theorem applyList_append {σ : Type} (db : Db σ) :
    ∀ (xs ys : List BinlogOperation) (s : σ),
      applyList db s (xs ++ ys)
        = match applyList db s xs with
          | .error e => .error e
          | .ok s1 => applyList db s1 ys := by
  intro xs
  induction xs with
  | nil => intro ys s; rfl
  | cons op xs ih =>
    intro ys s
    simp only [List.cons_append, applyList]
    rcases apply_operation_conditionally db s op with ⟨r, s2⟩
    cases r <;> simp [ih]

theorem enumFrom_filter_fst (q : BinlogOperation → Bool) :
    ∀ (ops : List BinlogOperation) (k : Nat),
      ((List.enumFrom k ops).filter (fun p => q p.2)).map Prod.fst
        = ((List.range ops.length).filter (fun i => q (ops.getD i default))).map
            (fun i => k + i) := by
  intro ops
  induction ops with
  | nil => intro k; rfl
  | cons a as ih =>
    intro k
    rw [List.enumFrom_cons, List.length_cons, List.range_succ_eq_map]
    simp only [List.filter_cons]
    have hsucc : ∀ l : List Nat, ∀ P : Nat → Bool,
        (l.map Nat.succ).filter P = (l.filter (fun i => P (i + 1))).map Nat.succ := by
      intro l P
      rw [List.filter_map]
      rfl
    have hfun : ((fun i => k + i) ∘ Nat.succ) = (fun i => k + 1 + i) := by
      funext i
      simp only [Function.comp_apply, Nat.succ_eq_add_one]
      omega
    by_cases hq : q a
    · simp only [hq, List.getD_cons_zero, if_pos, List.map_cons]
      rw [hsucc]
      simp only [List.getD_cons_succ]
      rw [ih (k + 1)]
      simp only [List.map_map, hfun, Nat.add_zero]
    · simp only [hq, List.getD_cons_zero, if_neg, Bool.false_eq_true, not_false_iff]
      rw [hsucc]
      simp only [List.getD_cons_succ]
      rw [ih (k + 1)]
      simp only [List.map_map, hfun]

theorem window_ops_eq (ops : List BinlogOperation) (lo hi : BinlogTimestamp) :
    ((ops.enum.filter (fun p => opInWindow lo hi p.2)).map Prod.fst)
      = inWindowIdx ops lo hi := by
  have h := enumFrom_filter_fst (opInWindow lo hi) ops 0
  simpa [List.enum, inWindowIdx] using h

/-- C2: with the snapshot timestamp parsed as T and the in-window index
set w nonempty, normalize picks transaction zero as the median in-window
index w[|w| / 2], and its effect on the store is exactly the
conditional-apply sequence of the in-window operations up to and
including transaction zero in stream order followed by the inverses of
the in-window operations after it in reverse stream order; when w is
empty it returns |stream| - 1 (or 0 for an empty stream) and applies
nothing. -/
theorem normalize_spec {σ : Type} (db : Db σ) (s : σ) (operations : List BinlogOperation)
    (snapshot_timestamp : String) (H : Int) (T : BinlogTimestamp)
    (hT : BinlogTimestamp.parse snapshot_timestamp = .ok T) :
    (inWindowIdx operations (T.subtract_hours H) (T.add_hours H) = [] →
      normalize db s operations snapshot_timestamp H =
        .ok (s, if operations.length = 0 then 0 else operations.length - 1)) ∧
    (∀ w, w = inWindowIdx operations (T.subtract_hours H) (T.add_hours H) → w ≠ [] →
      normalize db s operations snapshot_timestamp H =
        (applyList db s
          ((w.filter (fun i => i ≤ w.getD (w.length / 2) 0)).map
              (fun i => operations.getD i default)
            ++ ((w.filter (fun i => w.getD (w.length / 2) 0 < i)).reverse.map
              (fun i => (operations.getD i default).invert)))).map
          (fun s2 => (s2, w.getD (w.length / 2) 0))) := by
  constructor
  · intro hw
    unfold normalize
    rw [hT]
    dsimp only
    rw [window_ops_eq, hw]
    simp only [List.isEmpty_nil, if_pos]
    have : operations.isEmpty = decide (operations.length = 0) := by
      cases operations <;> simp
    rw [this]
    by_cases hlen : operations.length = 0 <;> simp [hlen]
  · intro w hw hne
    unfold normalize
    rw [hT]
    dsimp only
    rw [window_ops_eq, ← hw]
    rw [if_neg (by simpa [List.isEmpty_iff] using hne)]
    simp only [applyIdxList_eq]
    rw [applyList_append]
    rcases applyList db s ((w.filter (fun i => i ≤ w.getD (w.length / 2) 0)).map
        (fun i => operations.getD i default)) with e | s1
    · rfl
    · dsimp only
      rcases applyList db s1 (((w.filter (fun i => w.getD (w.length / 2) 0 < i)).reverse).map
          (fun i => (operations.getD i default).invert)) with e2 | s2 <;> rfl

/-- Witness for C2: ten identically timestamped operations all fall in
the window, transaction zero is window index 5, and the run applies
nothing against a store that answers no probe. -/
theorem normalize_spec_witness :
    normalize trivDb () ops10 "251108 12:00:00" 1 = .ok ((), 5) := by
  have h := (normalize_spec trivDb () ops10 "251108 12:00:00" 1 ⟨1762603200⟩ (by decide)).2
    (inWindowIdx ops10 (BinlogTimestamp.subtract_hours ⟨1762603200⟩ 1)
      (BinlogTimestamp.add_hours ⟨1762603200⟩ 1)) rfl (by decide)
  rw [h]
  decide

theorem digit_toNat_bounds (c : Char) (h : c.isDigit = true) :
    48 ≤ c.toNat ∧ c.toNat ≤ 57 := by
  simp only [Char.isDigit, Bool.and_eq_true, decide_eq_true_eq, ge_iff_le] at h
  obtain ⟨h1, h2⟩ := h
  have h1' : (48 : UInt32).toNat ≤ c.val.toNat := h1
  have h2' : c.val.toNat ≤ (57 : UInt32).toNat := h2
  have e1 : (48 : UInt32).toNat = 48 := rfl
  have e2 : (57 : UInt32).toNat = 57 := rfl
  have ec : c.toNat = c.val.toNat := rfl
  omega

theorem digitVal_lt (c : Char) (h : c.isDigit = true) : digitVal c < 10 := by
  have := digit_toNat_bounds c h
  simp only [digitVal]
  omega

theorem digit_ne_plus (c : Char) (h : c.isDigit = true) : c ≠ '+' := by
  intro he
  subst he
  simp [Char.isDigit] at h

theorem foldl_digits_split : ∀ (cs : List Char) (a : Nat),
    cs.foldl (fun acc c => acc * 10 + digitVal c) a = a * 10 ^ cs.length + listVal cs := by
  intro cs
  induction cs with
  | nil => intro a; simp [listVal]
  | cons c rest ih =>
    intro a
    have hl : listVal (c :: rest) = digitVal c * 10 ^ rest.length + listVal rest := by
      simp only [listVal, List.foldl_cons]
      rw [show (0 * 10 + digitVal c) = digitVal c by omega]
      exact ih (digitVal c)
    simp only [List.foldl_cons, List.length_cons]
    rw [ih (a * 10 + digitVal c), hl]
    ring

theorem listVal_lt : ∀ cs : List Char, cs.all Char.isDigit = true →
    listVal cs < 10 ^ cs.length := by
  intro cs
  induction cs with
  | nil => intro _; simp [listVal]
  | cons c rest ih =>
    intro h
    simp only [List.all_cons, Bool.and_eq_true] at h
    have h1 : listVal (c :: rest) = digitVal c * 10 ^ rest.length + listVal rest := by
      simp only [listVal, List.foldl_cons]
      rw [show (0 * 10 + digitVal c) = digitVal c by omega]
      exact foldl_digits_split rest (digitVal c)
    rw [h1]
    have h2 := ih h.2
    have h3 := digitVal_lt c h.1
    have h4 : (digitVal c + 1) * 10 ^ rest.length ≤ 10 * 10 ^ rest.length :=
      Nat.mul_le_mul_right _ (by omega)
    calc digitVal c * 10 ^ rest.length + listVal rest
        < (digitVal c + 1) * 10 ^ rest.length := by
          rw [Nat.succ_mul]
          omega
      _ ≤ 10 * 10 ^ rest.length := h4
      _ = 10 ^ (rest.length + 1) := by ring

theorem digitsVal?_digits (cs : List Char) (hne : cs ≠ [])
    (hd : cs.all Char.isDigit = true) : digitsVal? cs = some (listVal cs) := by
  simp [digitsVal?, hne, hd, listVal]

theorem parseU32_digits (cs : List Char) (hne : cs ≠ [])
    (hd : cs.all Char.isDigit = true) (hb : listVal cs < 2 ^ 32) :
    parseU32 cs = some (listVal cs) := by
  cases cs with
  | nil => exact absurd rfl hne
  | cons c rest =>
    have hcd : c.isDigit = true := by
      simp only [List.all_cons, Bool.and_eq_true] at hd
      exact hd.1
    have hcp : ¬ (c = '+') := digit_ne_plus c hcd
    have hb2 : listVal (c :: rest) < 4294967296 := hb
    simp only [parseU32, parseUnsigned, if_neg hcp]
    rw [digitsVal?_digits _ hne hd]
    simp [hb2]

theorem parseI32_year (cs : List Char) (hd : cs.all Char.isDigit = true)
    (hlen : cs.length = 2) :
    parseI32 ('2' :: '0' :: cs) = some ((2000 : Int) + listVal cs) := by
  have hall : ('2' :: '0' :: cs).all Char.isDigit = true := by simp [hd]
  have hval : listVal ('2' :: '0' :: cs) = 2000 + listVal cs := by
    have h0 : listVal ('2' :: '0' :: cs)
        = List.foldl (fun a c => a * 10 + digitVal c) 20 cs := by
      have h20 : (0 * 10 + digitVal '2') * 10 + digitVal '0' = 20 := by decide
      simp only [listVal, List.foldl_cons, h20]
    rw [h0, foldl_digits_split cs 20, hlen]
    ring
  have hdv := digitsVal?_digits ('2' :: '0' :: cs) (by simp) hall
  have hlt : listVal ('2' :: '0' :: cs) < 10 ^ 4 := by
    have := listVal_lt ('2' :: '0' :: cs) hall
    simpa [hlen] using this
  simp only [parseI32]
  rw [hdv]
  simp only [Option.bind, hval]
  rw [hval] at hlt
  rw [if_pos (by push_cast; omega)]
  norm_cast

/-- C8: the corrected acceptance shape of BinlogTimestamp::parse. Every
string of the strict shape claimed by the specification (6-digit date,
one space, three colon-separated all-digit in-range time fields) parses
successfully, and every successfully parsed string is of the relaxed
shape, which differs only in that the month, day, hour, minute and
second fields go through the Rust unsigned parser and may carry one
leading plus sign; the plus-sign counterexample shows the relaxation is
real. -/
theorem daysInMonth_le (y : Int) (m : Nat) : daysInMonth y m ≤ 31 := by
  unfold daysInMonth
  split_ifs <;> omega

theorem timestamp_parse_shape (s : String) :
    (strictShape s = true → ∃ t, BinlogTimestamp.parse s = .ok t) ∧
    ((∃ t, BinlogTimestamp.parse s = .ok t) → looseShape s = true) := by
  constructor
  · intro h
    unfold strictShape at h
    split at h
    · rename_i d t hsp
      split at h
      · rename_i hc mc sc hsp2
        simp only [Bool.and_eq_true, beq_iff_eq, Bool.not_eq_true'] at h
        obtain ⟨⟨⟨⟨⟨⟨⟨⟨⟨hdl, hdall⟩, hcne⟩, hcall⟩, hmne⟩, hmall⟩, hscne⟩, hscall⟩,
          hymd⟩, hhms⟩ := h
        have hcne' : hc ≠ [] := by cases hc <;> simp_all
        have hmne' : mc ≠ [] := by cases mc <;> simp_all
        have hscne' : sc ≠ [] := by cases sc <;> simp_all
        have htk : (d.take 2).length = 2 := by rw [List.length_take]; omega
        have hmlen : ((d.drop 2).take 2).length = 2 := by
          rw [List.length_take, List.length_drop]; omega
        have hdlen4 : (d.drop 4).length = 2 := by rw [List.length_drop]; omega
        have hmne2 : (d.drop 2).take 2 ≠ [] := by
          intro hx; rw [hx] at hmlen; simp at hmlen
        have hdne4 : d.drop 4 ≠ [] := by
          intro hx; rw [hx] at hdlen4; simp at hdlen4
        have hall_take : (d.take 2).all Char.isDigit = true := by
          rw [List.all_eq_true] at hdall ⊢
          exact fun x hx => hdall x (List.mem_of_mem_take hx)
        have hall_mon : ((d.drop 2).take 2).all Char.isDigit = true := by
          rw [List.all_eq_true] at hdall ⊢
          exact fun x hx => hdall x (List.mem_of_mem_drop (List.mem_of_mem_take hx))
        have hall_day : (d.drop 4).all Char.isDigit = true := by
          rw [List.all_eq_true] at hdall ⊢
          exact fun x hx => hdall x (List.mem_of_mem_drop hx)
        have hcond : 1 ≤ listVal ((d.drop 2).take 2) ∧ listVal ((d.drop 2).take 2) ≤ 12 ∧
            1 ≤ listVal (d.drop 4) ∧ listVal (d.drop 4) ≤ 31 := by
          rw [fromYmd?] at hymd
          split at hymd
          · rename_i hcnd
            have h31 := daysInMonth_le ((2000 : Int) + listVal (d.take 2))
              (listVal ((d.drop 2).take 2))
            omega
          · simp at hymd
        have hcond2 : listVal hc < 24 ∧ listVal mc < 60 ∧ listVal sc < 60 := by
          rw [fromHms?] at hhms
          split at hhms
          · rename_i hcnd
            exact hcnd
          · simp at hhms
        unfold BinlogTimestamp.parse
        rw [hsp]
        dsimp only
        rw [if_neg (by simp [hdl])]
        rw [parseI32_year (d.take 2) hall_take htk]
        dsimp only
        rw [parseU32_digits ((d.drop 2).take 2) hmne2 hall_mon (by omega)]
        dsimp only
        rw [parseU32_digits (d.drop 4) hdne4 hall_day (by omega)]
        dsimp only
        rw [hsp2]
        dsimp only
        rw [parseU32_digits hc hcne' hcall (by omega)]
        dsimp only
        rw [parseU32_digits mc hmne' hmall (by omega)]
        dsimp only
        rw [parseU32_digits sc hscne' hscall (by omega)]
        dsimp only
        obtain ⟨days, hdays⟩ := Option.isSome_iff_exists.mp hymd
        rw [hdays]
        dsimp only
        obtain ⟨sod, hsod⟩ := Option.isSome_iff_exists.mp hhms
        rw [hsod]
        dsimp only
        exact ⟨_, rfl⟩
      · simp at h
    · simp at h
  · rintro ⟨t0, ht⟩
    unfold BinlogTimestamp.parse at ht
    split at ht
    · rename_i d tp hsp
      split at ht
      · simp at ht
      · rename_i hlen6
        split at ht
        · simp at ht
        · rename_i year heqY
          split at ht
          · simp at ht
          · rename_i month heqMo
            split at ht
            · simp at ht
            · rename_i day heqDa
              split at ht
              · rename_i hc mc sc hsp2
                split at ht
                · simp at ht
                · rename_i hour heqH
                  split at ht
                  · simp at ht
                  · rename_i minute heqMi
                    split at ht
                    · simp at ht
                    · rename_i second heqSe
                      split at ht
                      · simp at ht
                      · rename_i days heqYmd
                        split at ht
                        · simp at ht
                        · rename_i sod heqHms
                          unfold looseShape
                          rw [hsp]
                          dsimp only
                          rw [hsp2]
                          dsimp only
                          rw [heqY, heqMo, heqDa, heqH, heqMi, heqSe]
                          dsimp only
                          rw [heqYmd, heqHms]
                          simp [show d.length = 6 from by omega]
              · simp at ht
    · simp at ht

/-- Counterexample for C8: the string with a plus sign inside the date
parses successfully although its date part is not made of 6 digits, so
parse does not succeed only on 6-digit dates. -/
theorem timestamp_parse_plus_cex :
    (∃ t, BinlogTimestamp.parse "25+112 10:00:00" = .ok t) ∧
    strictShape "25+112 10:00:00" = false ∧
    ("25+112".toList.all Char.isDigit) = false :=
  ⟨⟨⟨1736676000⟩, by decide⟩, by decide, by decide⟩

/-- Witness for C8 on a fully digit-shaped timestamp. -/
theorem timestamp_parse_shape_witness :
    (∃ t, BinlogTimestamp.parse "251108 17:03:00" = .ok t) ∧
    looseShape "251108 17:03:00" = true :=
  ⟨(timestamp_parse_shape "251108 17:03:00").1 (by decide),
   (timestamp_parse_shape "251108 17:03:00").2 ⟨⟨1762621380⟩, by decide⟩⟩

theorem asString_toList : ∀ v : String, v.toList.asString = v := by
  intro v
  cases v
  rfl

theorem toList_val_line (v : String) :
    ("###   @1=" ++ v).toList
      = '#' :: '#' :: '#' :: ' ' :: ' ' :: ' ' :: '@' :: '1' :: '=' :: v.toList := by
  cases v
  rfl

theorem strStarts_val_line (v : String) : strStarts ("###   @1=" ++ v) "###" = true := by
  simp [strStarts, toList_val_line, List.isPrefixOf]

theorem hasSub_digits (c : Char) (pat : List Char) (hcd : c.isDigit = false) :
    ∀ vs : List Char, vs.all Char.isDigit = true → hasSub vs (c :: pat) = false := by
  intro vs
  induction vs with
  | nil => intro _; rfl
  | cons a rest ih =>
    intro h
    simp only [List.all_cons, Bool.and_eq_true] at h
    have hne : (c == a) = false := by
      rw [beq_eq_false_iff_ne]
      intro he
      rw [he] at hcd
      rw [h.1] at hcd
      cases hcd
    simp only [hasSub, List.isPrefixOf, hne, Bool.false_and, Bool.false_or]
    exact ih h.2

theorem isOpStartSub_val_line (v : String) (hd : v.toList.all Char.isDigit = true) :
    isOpStartSub ("###   @1=" ++ v) = false := by
  have h1 := hasSub_digits '#' ['#', '#', ' ', 'U', 'P', 'D', 'A', 'T', 'E']
    (by decide) v.data hd
  have h2 := hasSub_digits '#' ['#', '#', ' ', 'I', 'N', 'S', 'E', 'R', 'T',
    ' ', 'I', 'N', 'T', 'O'] (by decide) v.data hd
  have h3 := hasSub_digits '#' ['#', '#', ' ', 'D', 'E', 'L', 'E', 'T', 'E',
    ' ', 'F', 'R', 'O', 'M'] (by decide) v.data hd
  simp only [isOpStartSub, strContains, toList_val_line, Bool.or_eq_false_iff]
  refine ⟨⟨?_, ?_⟩, ?_⟩ <;>
    simp [hasSub, List.isPrefixOf, h1, h2, h3]

theorem hasSub_set_val_line (v : String) (hd : v.toList.all Char.isDigit = true) :
    strContains ("###   @1=" ++ v) "### SET" = false := by
  have h1 := hasSub_digits '#' ['#', '#', ' ', 'S', 'E', 'T'] (by decide) v.data hd
  simp only [strContains, toList_val_line]
  simp [hasSub, List.isPrefixOf, h1]

theorem colVal_val_line (v : String) :
    colValCapture ("###   @1=" ++ v) = some ("1", v) := by
  simp only [colValCapture, toList_val_line, List.isPrefixOf, spanP, isWs]
  simp [spanP, isWs]
  exact ⟨by decide, asString_toList v⟩

theorem valuesLoop_stop : ∀ (items : List LogItem) (m : ValMap),
    valuesLoop (items.flatMap renderItem) m = .ok (m, items.flatMap renderItem) := by
  intro items m
  cases items with
  | nil => rfl
  | cons i rest =>
    cases i with
    | beginTx =>
      simp only [List.flatMap_cons, renderItem, List.cons_append, valuesLoop]
      rw [if_pos (by decide)]
      simp [List.flatMap]
    | commitTx =>
      simp only [List.flatMap_cons, renderItem, List.cons_append, valuesLoop]
      rw [if_pos (by decide)]
      simp [List.flatMap]
    | rollbackTx =>
      simp only [List.flatMap_cons, renderItem, List.cons_append, valuesLoop]
      rw [if_pos (by decide)]
      simp [List.flatMap]
    | ins v =>
      simp only [List.flatMap_cons, renderItem, List.cons_append, valuesLoop]
      rw [if_neg (by decide), if_pos (by decide)]
      simp [List.flatMap]

theorem parse_insert_render (v : String) (hd : v.toList.all Char.isDigit = true)
    (ts : Option String) (pos : Option Nat) (items : List LogItem) :
    parse_insert usersSchema "`main`.`users`" ts pos
        (("###   @1=" ++ v) :: items.flatMap renderItem)
      = .ok (some (insOpOf ts pos v), items.flatMap renderItem) := by
  have htab : extract_table_name "`main`.`users`" = ("main", "users") := by decide
  have hvl : valuesLoop (("###   @1=" ++ v) :: items.flatMap renderItem) emptyMap
      = .ok (mapInsert 1 v emptyMap, items.flatMap renderItem) := by
    rw [valuesLoop]
    rw [if_neg (by simp [strStarts_val_line v])]
    rw [if_neg (by simp [isOpStartSub_val_line v hd])]
    rw [colVal_val_line v]
    dsimp only
    rw [show parseUsize "1".toList = some 1 from by decide]
    dsimp only
    exact valuesLoop_stop items (mapInsert 1 v emptyMap)
  simp only [parse_insert, htab]
  rw [show usersSchema "users" = ["id"] from by decide]
  rw [if_neg (by decide)]
  rw [hvl]
  have hmat : materialise 1 (mapInsert 1 v emptyMap) = [v] := by
    simp [materialise, mapInsert, emptyMap, List.range_succ]
  simp [hmat, insOpOf]

theorem stampState_ins_line (st : ParseState) :
    stampState st "### INSERT INTO `main`.`users`" = st := by
  simp [stampState,
    show tsCapture "### INSERT INTO `main`.`users`" = none from by decide,
    show posCapture "### INSERT INTO `main`.`users`" = none from by decide]

theorem parseLines_render : ∀ items : List LogItem,
    (∀ i ∈ items, goodItem i = true) →
    ∀ (st : ParseState) (fuel : Nat), (items.flatMap renderItem).length ≤ fuel →
    parseLines usersSchema fuel (items.flatMap renderItem) st
      = .ok (st.out ++ txFold st.current_timestamp st.current_position items
          st.in_transaction st.pending_operations) := by
  intro items
  induction items with
  | nil =>
    intro _ st fuel _
    simp [parseLines, txFold]
  | cons i rest ih =>
    intro hgood st fuel hfuel
    have hgr : ∀ j ∈ rest, goodItem j = true :=
      fun j hj => hgood j (List.mem_cons_of_mem _ hj)
    cases i with
    | beginTx =>
      simp only [List.flatMap_cons, renderItem, List.cons_append, List.nil_append] at hfuel ⊢
      cases fuel with
      | zero => simp at hfuel
      | succ f =>
        rw [parseLines]
        rw [if_pos (by decide)]
        rw [ih hgr _ f (by simpa using hfuel)]
        rfl
    | commitTx =>
      simp only [List.flatMap_cons, renderItem, List.cons_append, List.nil_append] at hfuel ⊢
      cases fuel with
      | zero => simp at hfuel
      | succ f =>
        rw [parseLines]
        rw [if_neg (by decide), if_pos (by decide)]
        rw [ih hgr _ f (by simpa using hfuel)]
        cases hST : st.in_transaction <;>
          simp [txFold, hST, List.append_assoc]
    | rollbackTx =>
      simp only [List.flatMap_cons, renderItem, List.cons_append, List.nil_append] at hfuel ⊢
      cases fuel with
      | zero => simp at hfuel
      | succ f =>
        rw [parseLines]
        rw [if_neg (by decide), if_neg (by decide), if_pos (by decide)]
        rw [ih hgr _ f (by simpa using hfuel)]
        rfl
    | ins v =>
      have hv : v.toList.all Char.isDigit = true := hgood _ (List.mem_cons_self _ _)
      simp only [List.flatMap_cons, renderItem, List.cons_append, List.nil_append] at hfuel ⊢
      cases fuel with
      | zero => simp at hfuel
      | succ f =>
        rw [parseLines]
        rw [if_neg (by decide), if_neg (by decide), if_neg (by decide)]
        rw [stampState_ins_line]
        rw [show updCapture "### INSERT INTO `main`.`users`" = none from by decide]
        dsimp only
        rw [show insCapture "### INSERT INTO `main`.`users`" = some "`main`.`users`"
          from by decide]
        dsimp only
        rw [parse_insert_render v hv st.current_timestamp st.current_position rest]
        dsimp only
        rw [ih hgr _ f (by simp only [List.length_cons] at hfuel; omega)]
        cases hST : st.in_transaction <;>
          simp [pushOp, txFold, hST, List.append_assoc]

theorem txFold_commit_run : ∀ (vs : List String) (ts : Option String) (pos : Option Nat)
    (pending : List BinlogOperation) (tail : List LogItem),
    txFold ts pos (vs.map LogItem.ins ++ LogItem.commitTx :: tail) true pending
      = (pending ++ vs.map (insOpOf ts pos)) ++ txFold ts pos tail false [] := by
  intro vs
  induction vs with
  | nil => intro ts pos pending tail; simp [txFold]
  | cons v vs ih =>
    intro ts pos pending tail
    simp only [List.map_cons, List.cons_append, txFold, List.append_eq]
    rw [ih]
    simp

theorem txFold_rollback_run : ∀ (vs : List String) (ts : Option String) (pos : Option Nat)
    (pending : List BinlogOperation) (tail : List LogItem),
    txFold ts pos (vs.map LogItem.ins ++ LogItem.rollbackTx :: tail) true pending
      = txFold ts pos tail false [] := by
  intro vs
  induction vs with
  | nil => intro ts pos pending tail; simp [txFold]
  | cons v vs ih =>
    intro ts pos pending tail
    simp only [List.map_cons, List.cons_append, txFold, List.append_eq]
    rw [ih]

/-- C4 (amended): on rendered item logs, parse_file implements the
transaction framing exactly, with one divergence from the claim:
operations parsed outside any transaction ARE emitted directly into the
returned stream rather than withheld; operations of a COMMITted
transaction are emitted at the COMMIT in encountered order, and a
ROLLBACKed transaction contributes zero operations. -/
theorem parse_file_transaction_framing :
    (∀ items : List LogItem, (∀ i ∈ items, goodItem i = true) →
      parse_file usersSchema (items.flatMap renderItem)
        = .ok (txFold none none items false [])) ∧
    (∀ (v : String) (tail : List LogItem),
      txFold none none (.ins v :: tail) false []
        = insOpOf none none v :: txFold none none tail false []) ∧
    (∀ (vs : List String) (tail : List LogItem),
      txFold none none (.beginTx :: (vs.map LogItem.ins ++ .commitTx :: tail)) false []
        = vs.map (insOpOf none none) ++ txFold none none tail false []) ∧
    (∀ (vs : List String) (tail : List LogItem),
      txFold none none (.beginTx :: (vs.map LogItem.ins ++ .rollbackTx :: tail)) false []
        = txFold none none tail false []) := by
  refine ⟨?_, ?_, ?_, ?_⟩
  · intro items hgood
    unfold parse_file
    exact parseLines_render items hgood _ _ le_rfl
  · intro v tail
    rfl
  · intro vs tail
    rw [txFold, txFold_commit_run]
    simp
  · intro vs tail
    rw [txFold, txFold_rollback_run]

/-- Counterexample for C4: a log with no BEGIN and no COMMIT whose single
INSERT is nevertheless returned by parse_file, so the stream does not
consist only of operations from COMMITted transactions. -/
theorem parse_outside_transaction_cex :
    parse_file usersSchema ["### INSERT INTO `main`.`users`", "###   @1=1"]
      = .ok [insOpOf none none "1"] ∧
    (∀ l ∈ ["### INSERT INTO `main`.`users`", "###   @1=1"],
      strStarts l "BEGIN" = false ∧ strStarts l "COMMIT" = false) :=
  ⟨by decide, by decide⟩

/-- Witness for C4 on a log mixing an out-of-transaction INSERT, a
rolled-back transaction and a committed one. -/
theorem parse_file_transaction_framing_witness :
    parse_file usersSchema (items0.flatMap renderItem)
      = .ok [insOpOf none none "7", insOpOf none none "9"] := by
  have h := parse_file_transaction_framing.1 items0 (by decide)
  rw [h]
  decide

end Pensieve
